import Mathlib

/-!
Verification development for the Slower HTTP router.

The repository contains two generations of the router:
* `lib/router.js` (embedded below in namespace `LibRouter`): a route table of
  `Route` objects matched with the sparse pattern matcher `isSparseEqual`
  from `lib/utils.js`, driven by `mainServerHandler`.
* `src/slower.js` together with its decorators module (embedded in namespaces
  `SrcSlower` and `Resp`): a per-verb map of compiled path predicates,
  driven by `requestHandler` / `cycleMatching`.

Pure helper functions from `lib/utils.js` and the query-string/url helpers are
embedded in namespace `Utils`.  JavaScript strings are modelled as Lean
`String`/`List Char`; exceptions as `Except`; the mutable request/response
pair as explicit record states threaded through the handlers.
-/

namespace Utils

/-- Characters that are awkward to spell in source text, by code point. -/
def lbrace : Char := Char.ofNat 123

def rbrace : Char := Char.ofNat 125

def backtickC : Char := Char.ofNat 96

def aposC : Char := Char.ofNat 39

def quoteC : Char := Char.ofNat 34

/-! ### The sparse matcher (`lib/utils.js`, `isSparseEqual`, lines 70-75)

```js
const isSparseEqual = (str1 = '', str2 = '') => {
    const string1 = str1.replace(/{\?}/g, '.').replace(/{\*}/g, '.*');
    const string2 = str2.replace(/{\?}/g, '.').replace(/{\*}/g, '.*');
    const regex = new RegExp(`^${string1}$`);
    return regex.test(string2);
}
```

The produced regular expression is modelled for the metacharacters that the
token rewriting can produce, `.` and `*`; all other characters of the
pattern act as literals (the source never escapes them, which is exactly
what claim C10 is about).  A pattern in which `*` has no preceding atom is a
JavaScript `SyntaxError`; `isSparseEqual` then throws, modelled by `none`. -/

/-- One atom of the compiled regular expression: a literal character or the
metacharacter dot, each optionally starred. -/
inductive RAtom where
  | lit (c : Char) (star : Bool)
  | dot (star : Bool)
deriving DecidableEq

def RAtom.isStar : RAtom → Bool
  | .lit _ s => s
  | .dot s => s

/-- JavaScript `.` matches every character except the four line terminators. -/
def isLineTerm (c : Char) : Bool :=
  c = Char.ofNat 10 || c = Char.ofNat 13 || c = Char.ofNat 0x2028 || c = Char.ofNat 0x2029

def charMatches : RAtom → Char → Bool
  | .lit a _, c => a = c
  | .dot _, c => !isLineTerm c

/-- Compile the source of the regular expression (restricted to literals,
`.` and `*`).  A star with no preceding atom is a syntax error (`none`). -/
def parseAtoms : List Char → Option (List RAtom)
  | [] => some []
  | [c] =>
    if c = '*' then none
    else some [if c = '.' then RAtom.dot false else RAtom.lit c false]
  | c :: c2 :: rest2 =>
    if c = '*' then none
    else if c2 = '*' then
      (parseAtoms rest2).map (fun as => (if c = '.' then RAtom.dot true else RAtom.lit c true) :: as)
    else
      (parseAtoms (c2 :: rest2)).map (fun as => (if c = '.' then RAtom.dot false else RAtom.lit c false) :: as)

/-- All suffixes of `l` reachable from `l` by consuming characters matched by
the starred atom `a` (the candidate continuation points of `a*`). -/
def starTails (a : RAtom) : List Char → List (List Char)
  | [] => [[]]
  | c :: cs => (c :: cs) :: (if charMatches a c then starTails a cs else [])

/-- Anchored (`^...$`) matching of the compiled atoms against a string. -/
def rmatch : List RAtom → List Char → Bool
  | [], s => s.isEmpty
  | a :: rest, s =>
    if a.isStar then (starTails a s).any (fun t => rmatch rest t)
    else
      match s with
      | [] => false
      | c :: cs => charMatches a c && rmatch rest cs

/-- `s.replace(/t1t2t3/g, rep)` for a fixed three-character token: replace
every (left-to-right, non-overlapping) occurrence of the token by `rep`. -/
def replaceTok3 (t1 t2 t3 : Char) (rep : List Char) : List Char → List Char
  | a :: b :: c :: rest =>
    if a = t1 && b = t2 && c = t3 then rep ++ replaceTok3 t1 t2 t3 rep rest
    else a :: replaceTok3 t1 t2 t3 rep (b :: c :: rest)
  | l => l

/-- `str.replace(/{\?}/g, '.').replace(/{\*}/g, '.*')` — the token rewriting
applied by `isSparseEqual` to both of its arguments. -/
def sparseReplace (s : String) : String :=
  String.mk (replaceTok3 lbrace '*' rbrace ['.', '*']
    (replaceTok3 lbrace '?' rbrace ['.'] s.toList))

/-- `isSparseEqual(str1, str2)` from `lib/utils.js` lines 70-75.  `none`
models the `SyntaxError` thrown by `new RegExp` on a malformed pattern. -/
def isSparseEqual (str1 str2 : String) : Option Bool :=
  match parseAtoms (sparseReplace str1).toList with
  | none => none
  | some atoms => some (rmatch atoms (sparseReplace str2).toList)

/-! ### `slugify` (`lib/utils.js`)

```js
const slugify = (string, replacement = '-', replaceSpaces = true) => {
    return (string
        .replace(/<(?:.|\n)*?>/gm, '')
        .replace(/[!\"#$%&'\(\)\*\+,\/:;<=>\?\@\[\\\]\^`\{\|\}~]/g, '')
        .replace((replaceSpaces ? /(\s|\.)/g : /(\.)/g), replacement)
        .replace(/â€”/g, replacement)
        .replace(/ dash dash+ /g, replacement));   // (a run of 2+ dashes; spelled out here
}                                                  //  because the Lean comment syntax would
```                                                //  otherwise swallow the original spelling)

Embedded for the default arguments (`'-'`, `true`), which is how the `Route`
constructor calls it.  The `\s` character class is modelled on its ASCII
members plus NBSP and the BOM (the router only ever feeds it HTTP verb
names, which contain none of them). -/

/-- Suffix after the first `>` character, or `none` if there is no `>`
(in which case the non-greedy tag regex has no match starting here). -/
def dropThroughGt : List Char → Option (List Char)
  | [] => none
  | c :: cs => if c = '>' then some cs else dropThroughGt cs

/-- `string.replace(/<(?:.|\n)*?>/gm, '')`: remove every shortest
`<`...`>` run, fuelled by the length of the list. -/
def stripTagsF : Nat → List Char → List Char
  | 0, l => l
  | _ + 1, [] => []
  | f + 1, c :: cs =>
    if c = '<' then
      match dropThroughGt cs with
      | some rest => stripTagsF f rest
      | none => c :: stripTagsF f cs
    else c :: stripTagsF f cs

/-- Members of the punctuation character class removed by `slugify`. -/
def punctChars : List Char :=
  ['!', quoteC, '#', '$', '%', '&', aposC, '(', ')', '*', '+', ',', '/', ':',
   ';', '<', '=', '>', '?', '@', '[', '\\', ']', '^', backtickC, lbrace, '|',
   rbrace, '~']

/-- ASCII members of the JavaScript `\s` class, plus NBSP and the BOM. -/
def isJsSpace (c : Char) : Bool :=
  c = ' ' || c = Char.ofNat 9 || c = Char.ofNat 10 || c = Char.ofNat 11 ||
  c = Char.ofNat 12 || c = Char.ofNat 13 || c = Char.ofNat 0xa0 || c = Char.ofNat 0xfeff

/-- The dash-collapsing replacement: every run of two or more dashes
becomes a single dash (runs of length one are kept as they are). -/
def collapseDashesF : Nat → List Char → List Char
  | 0, l => l
  | _ + 1, [] => []
  | f + 1, c :: cs =>
    if c = '-' then '-' :: collapseDashesF f (cs.dropWhile (fun d => d = '-'))
    else c :: collapseDashesF f cs

/-- The mojibake sequence the source spells as `/â€”/g` (three characters). -/
def mojibake1 : Char := Char.ofNat 0xe2

def mojibake2 : Char := Char.ofNat 0x20ac

def mojibake3 : Char := Char.ofNat 0x201d

/-- JavaScript `toUpperCase`, character by character (ASCII range). -/
def jsToUpper (s : String) : String :=
  String.mk (s.toList.map Char.toUpper)

/-- JavaScript `toLowerCase`, character by character (ASCII range). -/
def jsToLower (s : String) : String :=
  String.mk (s.toList.map Char.toLower)

def slugify (s : String) : String :=
  let l1 := stripTagsF s.toList.length s.toList
  let l2 := l1.filter (fun c => !punctChars.contains c)
  let l3 := l2.map (fun c => if isJsSpace c || c = '.' then '-' else c)
  let l4 := replaceTok3 mojibake1 mojibake2 mojibake3 ['-'] l3
  String.mk (collapseDashesF l4.length l4)

/-! ### Template rendering (`lib/utils.js` `renderDynamicHTML`,
`decorators` `response.render`)

```js
for (let item in patterns) {
    template = template.replace(new RegExp('{{'+item+'}}', 'gim'), patterns[item]);
}
```

Each key is replaced via a global **case-insensitive** regular expression
built from the literal token `{{key}}` (faithful for keys without regex
metacharacters, e.g. bare identifiers).  The replacement string obeys the
JavaScript `$`-pattern semantics for a group-less regex: `$$`, `$&`,
`` $` `` and `$'` are special; every other `$`-sequence stays literal.
`response.render` first turns function-valued locals into strings by
calling them; locals are therefore modelled by their string values. -/

/-- Does `l` start with `tok` under the `i` flag (ASCII case folding)? -/
def ciStarts : List Char → List Char → Bool
  | [], _ => true
  | _ :: _, [] => false
  | t :: ts, c :: cs => (t.toLower = c.toLower) && ciStarts ts cs

/-- Does `l` start with `tok` exactly (case-sensitive comparison)? -/
def csStarts : List Char → List Char → Bool
  | [], _ => true
  | _ :: _, [] => false
  | t :: ts, c :: cs => (t = c) && csStarts ts cs

/-- JavaScript replacement-string expansion for a regex with no capture
groups: `$$` → `$`, `$&` → the matched text, `` $` `` → the portion of the
subject before the match, `$'` → the portion after it; any other sequence is
kept literally. -/
def expandRepl (matched pre post : List Char) : List Char → List Char
  | [] => []
  | [c] => [c]
  | c :: d :: rest2 =>
    if c = '$' then
      if d = '$' then '$' :: expandRepl matched pre post rest2
      else if d = '&' then matched ++ expandRepl matched pre post rest2
      else if d = backtickC then pre ++ expandRepl matched pre post rest2
      else if d = aposC then post ++ expandRepl matched pre post rest2
      else c :: expandRepl matched pre post (d :: rest2)
    else c :: expandRepl matched pre post (d :: rest2)

/-- Global case-insensitive replacement of the literal token `tok` by `val`
(with `$`-expansion), scanning `rest`; `pre` is the already scanned prefix
of the original subject (needed by `` $` ``), `f` is fuel. -/
def ciReplF (tok val : List Char) : Nat → List Char → List Char → List Char
  | 0, _, rest => rest
  | _ + 1, _, [] => []
  | f + 1, pre, c :: cs =>
    if ciStarts tok (c :: cs) then
      let m := (c :: cs).take tok.length
      let rest := (c :: cs).drop tok.length
      expandRepl m pre rest val ++ ciReplF tok val f (pre ++ m) rest
    else c :: ciReplF tok val f (pre ++ [c]) cs

/-- One `template.replace(new RegExp('{{'+key+'}}','gim'), val)` step. -/
def renderKey (html key val : String) : String :=
  let tok := lbrace :: lbrace :: (key.toList ++ [rbrace, rbrace])
  String.mk (ciReplF tok val.toList (html.toList.length + 1) [] html.toList)

/-- `renderDynamicHTML(html, patterns)` from `lib/utils.js` lines 93-102
(the very same loop is inlined in `response.render`). -/
def renderDynamicHTML (html : String) (patterns : List (String × String)) : String :=
  patterns.foldl (fun h p => renderKey h p.1 p.2) html

/-- The delimiter-wrapped token for a key. -/
def mkTok (key : String) : String :=
  String.mk (lbrace :: lbrace :: (key.toList ++ [rbrace, rbrace]))

/-- Exact (case-sensitive, `$`-free) global substitution of `tok` by `val`. -/
def csReplF (tok val : List Char) : Nat → List Char → List Char
  | 0, rest => rest
  | _ + 1, [] => []
  | f + 1, c :: cs =>
    if csStarts tok (c :: cs) then
      val ++ csReplF tok val f ((c :: cs).drop tok.length)
    else c :: csReplF tok val f cs

/-- Modelled from the spec: "output equal to the input with every occurrence
of that token replaced by `v` and every other byte unchanged" — literal
global substitution of the token, used as the reference for claim C8. -/
def specSubstitute (html tok val : String) : String :=
  String.mk (csReplF tok.toList val.toList (html.toList.length + 1) html.toList)

/-! ### URL helpers (`lib/url.js` module, file `part_003`)

```js
const getURLPathBody = (urlPath = '') => urlPath.split('?')[0] || '';
const getURLQueryString = (urlPath = '') => parse((urlPath.split('?')[1] || '').split('#')[0]);
```

`parse` is `node:querystring.parse`, a platform primitive: it splits the
input on `&` (skipping empty segments), splits each segment at its first
`=` (a segment without `=` gets the empty value), percent-plus-decodes both
sides, and collects values. A key seen once maps to its single value; a key
seen again has its values collected into an array in order of occurrence.
Percent-decoding is modelled at the single-byte level (sufficient for
ASCII data; multi-byte UTF-8 sequences would decode byte by byte). -/

/-- JavaScript `String.prototype.split` with a one-character separator. -/
def charSplit (sep : Char) : List Char → List (List Char)
  | [] => [[]]
  | c :: cs =>
    match charSplit sep cs with
    | [] => [[]]
    | p :: ps => if c = sep then [] :: p :: ps else (c :: p) :: ps

/-- Split a segment at its first `=`; a segment without `=` keeps the whole
text as the key and gets the empty value. -/
def splitEq : List Char → List Char × List Char
  | [] => ([], [])
  | c :: cs =>
    if c = '=' then ([], cs)
    else
      let kv := splitEq cs
      (c :: kv.1, kv.2)

def hexDigit (c : Char) : Option Nat :=
  if 48 ≤ c.toNat ∧ c.toNat ≤ 57 then some (c.toNat - 48)
  else if 65 ≤ c.toNat ∧ c.toNat ≤ 70 then some (c.toNat - 55)
  else if 97 ≤ c.toNat ∧ c.toNat ≤ 102 then some (c.toNat - 87)
  else none

/-- Query-string unescaping: `+` becomes a space, a valid `%XX` pair becomes
the corresponding code point, and malformed escapes stay literal. -/
def qsDecodeL : List Char → List Char
  | [] => []
  | c :: a :: b :: rest =>
    if c = '+' then ' ' :: qsDecodeL (a :: b :: rest)
    else if c = '%' then
      match hexDigit a, hexDigit b with
      | some ha, some hb => Char.ofNat (16 * ha + hb) :: qsDecodeL rest
      | _, _ => c :: qsDecodeL (a :: b :: rest)
    else c :: qsDecodeL (a :: b :: rest)
  | c :: cs =>
    if c = '+' then ' ' :: qsDecodeL cs else c :: qsDecodeL cs

/-- The value side of the parsed query mapping: a single value, or the
array node:querystring builds when a key occurs several times. -/
inductive QSVal where
  | one (v : String)
  | many (vs : List String)
deriving DecidableEq

def qsAdd (x : QSVal) (v : String) : QSVal :=
  match x with
  | .one a => .many [a, v]
  | .many l => .many (l ++ [v])

/-- Record one `key=value` pair, collecting repeats of an existing key. -/
def qsInsert : List (String × QSVal) → String → String → List (String × QSVal)
  | [], k, v => [(k, .one v)]
  | (k1, x) :: rest, k, v =>
    if k1 = k then (k1, qsAdd x v) :: rest
    else (k1, x) :: qsInsert rest k v

/-- The decoded `key=value` pairs of a raw query string, in order. -/
def qsPairs (l : List Char) : List (String × String) :=
  (charSplit '&' l).filterMap (fun piece =>
    if piece = [] then none
    else some (String.mk (qsDecodeL (splitEq piece).1), String.mk (qsDecodeL (splitEq piece).2)))

/-- `node:querystring.parse` on a raw query string. -/
def qsParse (l : List Char) : List (String × QSVal) :=
  (qsPairs l).foldl (fun m kv => qsInsert m kv.1 kv.2) []

/-- A character with no special role anywhere in query-string parsing:
neither a URL delimiter (`?`, `#`), nor a pair/key separator (`&`, `=`),
nor part of an escape (`%`, `+`). -/
def qsPlainChar (c : Char) : Bool :=
  !(c = '&' || c = '=' || c = '%' || c = '+' || c = '?' || c = '#')

/-- `getURLPathBody`: the part of the URL before the first `?`. -/
def getURLPathBody (url : String) : String :=
  String.mk ((charSplit '?' url.toList).headD [])

/-- `getURLQueryString`: parse the text between the first `?` and the next
`#` (JavaScript `split('?')[1]`, i.e. the second split piece). -/
def getURLQueryString (url : String) : List (String × QSVal) :=
  qsParse ((charSplit '#' ((charSplit '?' url.toList).getD 1 [])).headD [])

end Utils

/-- An incoming HTTP request, as far as routing is concerned: its method
string and its raw URL. -/
structure HReq where
  method : String
  url : String
deriving DecidableEq

namespace LibRouter

/-!
Embedding of the legacy router, `lib/router.js` (the last version in the
file, lines 774-1247).  The response is modelled by the fields the handler
code observes and mutates: `res.writableEnded` (`ended`) and the chunks
written so far (`written`).  A user callback is a function from the request
and that state to either a new state or a thrown error carrying the state
at the throw point (mutations persist across JavaScript exceptions).
`console.log(err)` in the outer catch is modelled by returning the error
alongside the final state.  Promise-valued callbacks are awaited by the
source (`if (isPromise(rr)) await rr`), so handlers are modelled as their
awaited results.  The request decoration performed first
(`setSocketLocals`, `setResponseAssessors`, optional security headers)
touches neither `ended` nor `written` and is not represented in the state.
-/

/-- Errors thrown by JavaScript code, carried as their message. -/
abbrev Err := String

structure RSt where
  ended : Bool
  written : List String
deriving DecidableEq

abbrev RHandler := HReq → RSt → Except (Err × RSt) RSt

/-- `SlowerRouter.http_methods`. -/
def httpMethods : List String :=
  ["GET", "POST", "PUT",
   "HEAD", "DELETE", "OPTIONS",
   "TRACE", "COPY", "LOCK",
   "MKCOL", "MOVE", "PURGE",
   "PROPFIND", "PROPPATCH", "UNLOCK",
   "REPORT", "MKACTIVITY", "CHECKOUT",
   "MERGE", "M-SEARCH", "NOTIFY",
   "SUBSCRIBE", "UNSUBSCRIBE", "PATCH",
   "SEARCH", "CONNECT"]

/-- `const noop = function () {};` used as the default middleware, fallback
and blocked-method callback. -/
def noopH : RHandler := fun _ s => .ok s

structure Route where
  path : String
  type : Option String
  callback : RHandler

/-- The `Route` constructor (`lib/router.js` lines 780-786):

```js
this.path = (path.startsWith('/') ? path : '/' + path);
this.type = SlowerRouter.http_methods.includes(slugify(type).toUpperCase()) ?
            slugify(type).toUpperCase() : null;
this.callback = (typeof callback == 'function' ? callback : noop);
```

`startsWith('/')` is a one-character prefix test, written here on the head
of the character list; callbacks are always functions in the embedding. -/
def Route.make (path type : String) (callback : RHandler) : Route :=
  { path := if path.data.head? = some '/' then path else String.mk ('/' :: path.data)
    type :=
      if httpMethods.contains (Utils.jsToUpper (Utils.slugify type)) then
        some (Utils.jsToUpper (Utils.slugify type))
      else none
    callback := callback }

/-- `setRoute` pushes a freshly constructed `Route` onto `this.routes`. -/
def setRoute (routes : List Route) (path type : String) (cb : RHandler) : List Route :=
  routes ++ [Route.make path type cb]

/-- The route list produced by a sequence of `setRoute` calls. -/
def buildRoutes (calls : List (String × String × RHandler)) : List Route :=
  calls.foldl (fun rs c => setRoute rs c.1 c.2.1 c.2.2) []

/-- The route-selection condition of `mainServerHandler`:
`route.type === req.method && (route.path === req.url || isSparseEqual(route.path, req.url))`.
A `SyntaxError` escaping `new RegExp` inside `isSparseEqual` is a thrown
error. -/
def evalRouteCond (r : Route) (req : HReq) : Except Err Bool :=
  if r.type = some req.method then
    if r.path = req.url then .ok true
    else
      match Utils.isSparseEqual r.path req.url with
      | some b => .ok b
      | none => .error "SyntaxError: invalid regular expression"
  else .ok false

/-- The scan over `this.routes`: the first route whose condition holds. -/
def findRoute (req : HReq) : List Route → Except Err (Option Route)
  | [] => .ok none
  | r :: rs =>
    match evalRouteCond r req with
    | .error e => .error e
    | .ok true => .ok (some r)
    | .ok false => findRoute req rs

/-- The middleware loop: each middleware runs in order; if one ends the
response, the handler returns early (flag `true`). -/
def runMiddlewares (req : HReq) : List RHandler → RSt → Except (Err × RSt) (Bool × RSt)
  | [], s => .ok (false, s)
  | m :: ms, s =>
    match m req s with
    | .error e => .error e
    | .ok s1 => if s1.ended then .ok (true, s1) else runMiddlewares req ms s1

/-- `if (!res.writableEnded) res.end();` -/
def endIfOpen (s : RSt) : RSt :=
  if s.ended then s else { s with ended := true }

/-- The body of `mainServerHandler` (`lib/router.js` lines 1156-1196),
without the outer try/catch. -/
def mainBody (middle : List RHandler) (routes : List Route) (fallback : RHandler)
    (allowed : List String) (blockedCb : RHandler) (req : HReq) (s : RSt) :
    Except (Err × RSt) RSt :=
  match runMiddlewares req middle s with
  | .error e => .error e
  | .ok (true, s1) => .ok s1
  | .ok (false, s1) =>
    if allowed.contains req.method then
      match findRoute req routes with
      | .error e => .error (e, s1)
      | .ok (some r) => r.callback req s1
      | .ok none =>
        match fallback req s1 with
        | .error e => .error e
        | .ok s2 => .ok (endIfOpen s2)
    else
      match blockedCb req s1 with
      | .error e => .error e
      | .ok s2 => .ok (endIfOpen s2)

/-- `mainServerHandler` with its outer `try { ... } catch(err) { console.log(err) }`:
the thrown error is logged (returned) and the response state is left as it
was at the throw point. -/
def mainServerHandler (middle : List RHandler) (routes : List Route) (fallback : RHandler)
    (allowed : List String) (blockedCb : RHandler) (req : HReq) (s : RSt) :
    RSt × Option Err :=
  match mainBody middle routes fallback allowed blockedCb req s with
  | .ok s1 => (s1, none)
  | .error (e, s1) => (s1, some e)

/-- A route callback that throws. -/
def throwingRH (e : Err) : RHandler := fun _ s => .error (e, s)

/-- A stored route matching `GET /x`, as built by the constructor. -/
def sampleRoute : Route := Route.make "/x" "GET" noopH

end LibRouter

namespace SrcSlower

/-!
Embedding of the current router, `src/slower.js`, whose per-request entry
point is:

```js
return (async function requestHandler (req, res) {
    let foundRoutes = utils.getMatchingRoute(req.url, req.method, self.layers);
    let layers = foundRoutes;
    req = await setupRequest(req);
    res = await setupResponse(res);
    ;(async function cycleMatching (routes) {
        if (routes.length === 0) return;
        let route = routes[0];
        if (route.params) req.params = route.params;
        if (route.callback) route = route.callback;
        route(req, res, async () => cycleMatching(routes.slice(1)));
    })(layers);
});
```

`this.layers` is a `Map` from lower-case verb to a `Map` from compiled
path predicate (produced by the external `path-to-regexp` library's
`match`) to handler; a JavaScript `Map` iterates in insertion order, so
both maps are modelled as association lists in registration order.  The
compiled predicate is kept abstract — a function from the path to `none`
(no match) or `some params` — since `path-to-regexp` is an external npm
dependency, not repository code.

The per-request state gathers what the chain can observe and mutate:
`req.params`, a user-visible scratch list `log` (standing for any mutable
field handlers use to record their execution), and the response's
`writableEnded`/written chunks.  A handler receives the state and the
`proceed` continuation built by `cycleMatching`; promise rejections and
thrown exceptions both surface as `Except.error` carrying the state.
`requestHandler` installs no try/catch around the chain, so such an error
escapes `requestHandler` itself (an unhandled rejection in Node).
-/

abbrev Err := String

abbrev Params := List (String × String)

structure SSt where
  params : Option Params
  log : List String
  ended : Bool
  written : List String
deriving DecidableEq

abbrev DResult := Except (Err × SSt) SSt

/-- A middleware or terminal handler: state plus `proceed` continuation. -/
abbrev SHandler := SSt → (SSt → DResult) → DResult

/-- A compiled `path-to-regexp` predicate (external library, abstract):
`none` models the `false` it returns on a miss, `some ps` the `params`
object of a hit. -/
abbrev PathFn := String → Option Params

/-- One entry of the computed match list. -/
structure MatchedEntry where
  callback : SHandler
  params : Option Params

/-- The entry `getMatchingRoute` pushes for a hit:
`{ callback }`, plus `params` when `params.params['0'] === undefined`
(i.e. when the compiled pattern produced no positional capture). -/
def entryOf (cb : SHandler) (ps : Params) : MatchedEntry :=
  { callback := cb, params := if (ps.lookup "0").isNone then some ps else none }

/-- `getMatchingRoute(url, method, layers)` from the url-helpers module:
lower-case the method, take that verb's route map (or an empty one), and
keep — in insertion order — every route whose predicate matches the
path part of the URL. -/
def getMatchingRoute (url method : String)
    (layers : List (String × List (PathFn × SHandler))) : List MatchedEntry :=
  let routes := (layers.lookup (Utils.jsToLower method)).getD []
  routes.filterMap (fun fc => (fc.1 (Utils.getURLPathBody url)).map (fun ps => entryOf fc.2 ps))

/-- `cycleMatching`: invoke the head entry with a continuation that cycles
over the tail; an empty list just returns (nothing is written or ended). -/
def cycleMatching : List MatchedEntry → SSt → DResult
  | [], s => .ok s
  | e :: rest, s =>
    let s1 :=
      match e.params with
      | some p => { s with params := some p }
      | none => s
    e.callback s1 (fun s2 => cycleMatching rest s2)

/-- `setupRequest` (decorators module): the part visible to this state —
the `req.params` placeholder is reset; session, query and body fields do
not interact with the dispatch claims. -/
def setupReq (s : SSt) : SSt := { s with params := none }

/-- The per-request handler: compute the match list, decorate, cycle. -/
def requestHandler (layers : List (String × List (PathFn × SHandler)))
    (req : HReq) (s : SSt) : DResult :=
  cycleMatching (getMatchingRoute req.url req.method layers) (setupReq s)

/-- A handler that records its tag and proceeds. -/
def tagHandler (t : String) : SHandler :=
  fun s next => next { s with log := s.log ++ [t] }

/-- A handler that throws (or rejects) without touching the response. -/
def throwHandler (e : Err) : SHandler := fun s _ => .error (e, s)

/-- A handler that calls its `proceed` continuation twice in sequence. -/
def callTwice : SHandler :=
  fun s next =>
    match next s with
    | .ok s1 => next s1
    | .error er => .error er

/-- A handler that calls its `proceed` continuation `k` times in sequence. -/
def callK : Nat → SHandler
  | 0 => fun s _ => .ok s
  | k + 1 =>
    fun s next =>
      match next s with
      | .ok s1 => callK k s1 next
      | .error er => .error er

/-- A compiled pattern that matches every path with no captures. -/
def matchAllFn : PathFn := fun _ => some []

/-- A compiled pattern that never matches. -/
def neverFn : PathFn := fun _ => none

/-- Registration scaffolding for the ordering claim: the i-th registered
pattern is paired with a handler that logs `toString i` and proceeds. -/
def tagEntries : Nat → List PathFn → List (PathFn × SHandler)
  | _, [] => []
  | i, f :: fs => (f, tagHandler (toString i)) :: tagEntries (i + 1) fs

/-- A layer map holding `fs` registered for GET, in order. -/
def mkLayers (fs : List PathFn) : List (String × List (PathFn × SHandler)) :=
  [("get", tagEntries 0 fs)]

/-- The registration indices whose patterns match `path`, in registration
order, paired with the params their pattern produced. -/
def matchingTags (path : String) : Nat → List PathFn → List (String × Params)
  | _, [] => []
  | i, f :: fs =>
    match f path with
    | some ps => (toString i, ps) :: matchingTags path (i + 1) fs
    | none => matchingTags path (i + 1) fs

end SrcSlower

namespace Resp

/-!
Embedding of the finalizing response helpers installed by `setupResponse`
(decorators module), over the contract of the platform's
`http.ServerResponse` (an external collaborator of the system):

* `setHeader(name, value)` stores the (case-insensitively keyed) header and
  **throws** `ERR_HTTP_HEADERS_SENT` once the headers have been flushed;
* the first `write`/`end` flushes the headers; `write` after `end` does not
  append anything to the body and raises `ERR_STREAM_WRITE_AFTER_END`
  (emitted asynchronously by the platform — recorded here in
  `emittedErrors`); a second `end` likewise raises
  `ERR_STREAM_ALREADY_FINISHED`;
* `statusCode` starts out as the platform default `200` (it is never
  `undefined`, so the helpers' `if (response.statusCode === undefined)`
  guard is dead code, embedded all the same).

The helpers themselves are translated from the source:

```js
response.json = function json (data) {
    if (response.statusCode === undefined) response.status(200);
    response.setHeader('Content-type', 'application/json');
    response.write(JSON.stringify(data));
    response.end();
};
response.send = function (data) {
    if (response.statusCode === undefined) response.status(200);
    if (!response.getHeader('Content-Type'))
        response.setHeader('Content-Type', 'text/html');
    response.write(data);
    response.end();
};
```
-/

inductive NErr where
  | headersSentErr
  | writeAfterEnd
  | alreadyFinished
deriving DecidableEq

structure NodeRes where
  statusCode : Option Nat
  headers : List (String × String)
  headersSent : Bool
  written : List String
  ended : Bool
  emittedErrors : List NErr
deriving DecidableEq

/-- A fresh `http.ServerResponse`. -/
def freshRes : NodeRes :=
  { statusCode := some 200, headers := [], headersSent := false,
    written := [], ended := false, emittedErrors := [] }

/-- Header storage is keyed case-insensitively (Node lower-cases names). -/
def putHeader (k v : String) : List (String × String) → List (String × String)
  | [] => [(Utils.jsToLower k, v)]
  | (k1, v1) :: rest =>
    if k1 = Utils.jsToLower k then (k1, v) :: rest
    else (k1, v1) :: putHeader k v rest

def getHeader (r : NodeRes) (k : String) : Option String :=
  r.headers.lookup (Utils.jsToLower k)

/-- `response.setHeader`: throws once the headers have been flushed. -/
def setHeaderE (k v : String) (r : NodeRes) : Except (NErr × NodeRes) NodeRes :=
  if r.headersSent then .error (.headersSentErr, r)
  else .ok { r with headers := putHeader k v r.headers }

/-- `response.write`: appends to the body and flushes headers, or (after
`end`) appends nothing and emits a write-after-end error. -/
def writeR (d : String) (r : NodeRes) : NodeRes :=
  if r.ended then { r with emittedErrors := r.emittedErrors ++ [.writeAfterEnd] }
  else { r with written := r.written ++ [d], headersSent := true }

/-- `response.end()` (no arguments). -/
def endR (r : NodeRes) : NodeRes :=
  if r.ended then { r with emittedErrors := r.emittedErrors ++ [.alreadyFinished] }
  else { r with ended := true, headersSent := true }

/-- `if (response.statusCode === undefined) response.status(200);` -/
def statusGuard (r : NodeRes) : NodeRes :=
  if r.statusCode.isNone then { r with statusCode := some 200 } else r

/-- `JSON.stringify` on a string value: quote and escape. -/
def jsonEscape : List Char → List Char
  | [] => []
  | c :: cs =>
    if c = Utils.quoteC || c = '\\' then '\\' :: c :: jsonEscape cs
    else if c = Char.ofNat 10 then '\\' :: 'n' :: jsonEscape cs
    else if c = Char.ofNat 13 then '\\' :: 'r' :: jsonEscape cs
    else if c = Char.ofNat 9 then '\\' :: 't' :: jsonEscape cs
    else c :: jsonEscape cs

def jsonStringify (s : String) : String :=
  String.mk (Utils.quoteC :: (jsonEscape s.toList ++ [Utils.quoteC]))

/-- `response.send(data)`. -/
def sendFn (d : String) (r : NodeRes) : Except (NErr × NodeRes) NodeRes :=
  let r1 := statusGuard r
  match (if (getHeader r1 "Content-Type").isNone
         then setHeaderE "Content-Type" "text/html" r1
         else .ok r1) with
  | .error e => .error e
  | .ok r2 => .ok (endR (writeR d r2))

/-- `response.json(data)` for a string payload. -/
def jsonFn (d : String) (r : NodeRes) : Except (NErr × NodeRes) NodeRes :=
  let r1 := statusGuard r
  match setHeaderE "Content-type" "application/json" r1 with
  | .error e => .error e
  | .ok r2 => .ok (endR (writeR (jsonStringify d) r2))

/-- A handler body that calls `res.send(d1)` and then `res.json(d2)`. -/
def sendThenJson (d1 d2 : String) (r : NodeRes) : Except (NErr × NodeRes) NodeRes :=
  match sendFn d1 r with
  | .ok r1 => jsonFn d2 r1
  | .error e => .error e

/-- The response state after a successful `send(d)` on a fresh response. -/
def afterSend (d : String) : NodeRes :=
  { statusCode := some 200, headers := [("content-type", "text/html")],
    headersSent := true, written := [d], ended := true, emittedErrors := [] }

end Resp

/-! ## Theorems -/

/-- If no route's selection condition holds, the scan selects nothing. -/
theorem findRoute_none (req : HReq) (routes : List LibRouter.Route)
    (h : ∀ r ∈ routes, LibRouter.evalRouteCond r req = .ok false) :
    LibRouter.findRoute req routes = .ok none := by
  induction routes with
  | nil => rfl
  | cons r rs ih =>
    have hr := h r (List.mem_cons_self r rs)
    simp only [LibRouter.findRoute, hr]
    exact ih (fun r2 h2 => h r2 (List.mem_cons_of_mem r h2))

/-- C10: the sparse matcher does not escape regex metacharacters in the
pattern: the registered path `/a.css` matches the different request path
`/aXcss`, because its dot acts as the regex any-character operator. -/
theorem unescaped_metachar_matches :
    Utils.isSparseEqual "/a.css" "/aXcss" = some true ∧ "/a.css" ≠ "/aXcss" :=
  ⟨rfl, by decide⟩

/-- C4: after `res.send(d1)` has completed, `res.json(d2)` on the same
response throws the headers-already-sent error before writing anything:
the response body holds exactly the one chunk written by `send`, and the
response is finalized — a second finalizing helper is a diagnosable error
and never produces two written bodies. -/
theorem finalize_once_send_then_json (d1 d2 : String) :
    Resp.sendThenJson d1 d2 Resp.freshRes =
      .error (.headersSentErr, Resp.afterSend d1) ∧
    (Resp.afterSend d1).written = [d1] ∧ (Resp.afterSend d1).ended = true :=
  ⟨rfl, rfl, rfl⟩

/-- C1 (counterexample): in the current dispatcher (`src/slower.js`), a
`GET /missing` request whose computed match list is empty terminates the
chain with the response still unfinalized — `cycleMatching` just returns,
nothing writes a default not-found response, so the request hangs. -/
theorem no_match_hangs_cex :
    SrcSlower.requestHandler [] ⟨"GET", "/missing"⟩ ⟨none, [], false, []⟩ =
      .ok ⟨none, [], false, []⟩ ∧
    (⟨none, [], false, []⟩ : SrcSlower.SSt).ended = false :=
  ⟨rfl, rfl⟩

/-- C1 (amended): when the match list is exhausted, the legacy handler
(`lib/router.js`) runs the fallback (default `noop`) and then finalizes the
response itself via `res.end()` — an empty-bodied response, not a dedicated
not-found one; the current handler (`src/slower.js`) finalizes nothing on
an empty match list and leaves the request state untouched. -/
theorem no_match_finalization :
    (∀ (routes : List LibRouter.Route) (req : HReq),
        req.method ∈ LibRouter.httpMethods →
        (∀ r ∈ routes, LibRouter.evalRouteCond r req = .ok false) →
        LibRouter.mainServerHandler [LibRouter.noopH] routes LibRouter.noopH
          LibRouter.httpMethods LibRouter.noopH req ⟨false, []⟩ =
          (⟨true, []⟩, none)) ∧
    (∀ (layers : List (String × List (SrcSlower.PathFn × SrcSlower.SHandler)))
        (req : HReq) (s : SrcSlower.SSt),
        SrcSlower.getMatchingRoute req.url req.method layers = [] →
        SrcSlower.requestHandler layers req s = .ok (SrcSlower.setupReq s) ∧
        (SrcSlower.setupReq s).ended = s.ended ∧
        (SrcSlower.setupReq s).written = s.written) := by
  constructor
  · intro routes req hm hnone
    have hc : LibRouter.httpMethods.contains req.method = true :=
      List.elem_eq_true_of_mem hm
    have hf := findRoute_none req routes hnone
    simp only [LibRouter.mainServerHandler, LibRouter.mainBody, LibRouter.runMiddlewares,
      LibRouter.noopH, LibRouter.endIfOpen, hc, hf]
    rfl
  · intro layers req s h
    refine ⟨?_, rfl, rfl⟩
    show SrcSlower.cycleMatching
      (SrcSlower.getMatchingRoute req.url req.method layers) (SrcSlower.setupReq s) = _
    rw [h]
    rfl

/-- C1 (witness): the legacy-handler part applied to a single registered
route `GET /a` and the request `GET /missing` (no route matches), and the
current-handler part applied to a never-matching registered pattern. -/
theorem no_match_finalization_witness :
    LibRouter.mainServerHandler [LibRouter.noopH]
      [LibRouter.Route.make "/a" "GET" LibRouter.noopH] LibRouter.noopH
      LibRouter.httpMethods LibRouter.noopH ⟨"GET", "/missing"⟩ ⟨false, []⟩ =
      (⟨true, []⟩, none) ∧
    SrcSlower.requestHandler [("get", [(SrcSlower.neverFn, SrcSlower.tagHandler "H")])]
      ⟨"GET", "/missing"⟩ ⟨none, [], false, []⟩ =
      .ok (SrcSlower.setupReq ⟨none, [], false, []⟩) :=
  ⟨no_match_finalization.1 [LibRouter.Route.make "/a" "GET" LibRouter.noopH]
      ⟨"GET", "/missing"⟩ (by decide)
      (fun r hr => by
        rcases List.mem_singleton.1 hr with rfl
        rfl),
   (no_match_finalization.2 [("get", [(SrcSlower.neverFn, SrcSlower.tagHandler "H")])]
      ⟨"GET", "/missing"⟩ ⟨none, [], false, []⟩ rfl).1⟩

/-- C2 (counterexample): in the current dispatcher (`src/slower.js`), an
exception thrown by a matched handler escapes the per-request dispatch
itself — there is no try/catch around `cycleMatching`, so the rejection
propagates out of `requestHandler` instead of being caught and converted
into a server-error response. -/
theorem handler_error_escape_cex :
    SrcSlower.requestHandler
      [("get", [(SrcSlower.matchAllFn, SrcSlower.throwHandler "boom")])]
      ⟨"GET", "/x"⟩ ⟨none, [], false, []⟩ =
      .error ("boom", ⟨some [], [], false, []⟩) :=
  rfl

/-- C2 (amended): the legacy handler (`lib/router.js`) does catch handler
exceptions — the process survives and the error is only logged, with the
response left exactly as it was at the throw point (no server-error
response is written); the current handler (`src/slower.js`) installs no
such wrapper, so the exception leaves the dispatch as an unhandled
rejection. -/
theorem handler_error_containment :
    (∀ (e : LibRouter.Err) (s : LibRouter.RSt), s.ended = false →
        LibRouter.mainServerHandler [LibRouter.noopH]
          [⟨"/x", some "GET", LibRouter.throwingRH e⟩] LibRouter.noopH
          LibRouter.httpMethods LibRouter.noopH ⟨"GET", "/x"⟩ s = (s, some e)) ∧
    (∀ (e : SrcSlower.Err) (s : SrcSlower.SSt),
        SrcSlower.requestHandler
          [("get", [(SrcSlower.matchAllFn, SrcSlower.throwHandler e)])]
          ⟨"GET", "/x"⟩ s =
          .error (e, { SrcSlower.setupReq s with params := some [] })) := by
  constructor
  · intro e s h
    simp only [LibRouter.mainServerHandler, LibRouter.mainBody, LibRouter.runMiddlewares,
      LibRouter.noopH, h]
    rfl
  · intro e s
    rfl

/-- C2 (witness): both parts of the containment theorem applied to the
error `"oops"` and a fresh response state. -/
theorem handler_error_containment_witness :
    LibRouter.mainServerHandler [LibRouter.noopH]
      [⟨"/x", some "GET", LibRouter.throwingRH "oops"⟩] LibRouter.noopH
      LibRouter.httpMethods LibRouter.noopH ⟨"GET", "/x"⟩ ⟨false, []⟩ =
      (⟨false, []⟩, some "oops") ∧
    SrcSlower.requestHandler
      [("get", [(SrcSlower.matchAllFn, SrcSlower.throwHandler "oops")])]
      ⟨"GET", "/x"⟩ ⟨none, [], false, []⟩ =
      .error ("oops", { SrcSlower.setupReq ⟨none, [], false, []⟩ with params := some [] }) :=
  ⟨handler_error_containment.1 "oops" ⟨false, []⟩ rfl,
   handler_error_containment.2 "oops" ⟨none, [], false, []⟩⟩

/-- C3 (counterexample): a handler that calls its `proceed` continuation
twice makes the downstream handler run twice — its tag is recorded twice in
the per-request log. -/
theorem proceed_double_invoke_cex :
    SrcSlower.cycleMatching
      [⟨SrcSlower.callTwice, none⟩, ⟨SrcSlower.tagHandler "downstream", none⟩]
      ⟨none, [], false, []⟩ =
      .ok ⟨none, ["downstream", "downstream"], false, []⟩ ∧
    List.count "downstream" ["downstream", "downstream"] = 2 :=
  ⟨rfl, rfl⟩

/-- The iterated `proceed` continuation produced by `cycleMatching` for the
tail `[tagHandler t]` appends one tag per call. -/
theorem callK_iter (t : String) (k : Nat) (s : SrcSlower.SSt) :
    SrcSlower.callK k s (fun s2 => .ok { s2 with log := s2.log ++ [t] }) =
      .ok { s with log := s.log ++ List.replicate k t } := by
  induction k generalizing s with
  | zero => simp [SrcSlower.callK]
  | succ k ih =>
    show SrcSlower.callK k { s with log := s.log ++ [t] } _ = _
    rw [ih]
    simp [List.replicate_succ]

/-- C3 (amended): `proceed` is not single-use: each call re-runs the whole
remaining chain, so a handler that calls it `k` times runs the downstream
handler exactly `k` times. -/
theorem proceed_reinvokes_downstream (k : Nat) (s : SrcSlower.SSt) :
    SrcSlower.cycleMatching
      [⟨SrcSlower.callK k, none⟩, ⟨SrcSlower.tagHandler "downstream", none⟩] s =
      .ok { s with log := s.log ++ List.replicate k "downstream" } :=
  callK_iter "downstream" k s

/-- The match-list computation keeps the registered patterns' entries in
registration order: on the tag-instrumented registration list it produces
exactly the entries of the matching registration indices, in order. -/
theorem filterMap_tagEntries (path : String) (fs : List SrcSlower.PathFn) (i : Nat) :
    (SrcSlower.tagEntries i fs).filterMap
        (fun fc => (fc.1 path).map (fun ps => SrcSlower.entryOf fc.2 ps)) =
      (SrcSlower.matchingTags path i fs).map
        (fun tp => SrcSlower.entryOf (SrcSlower.tagHandler tp.1) tp.2) := by
  induction fs generalizing i with
  | nil => rfl
  | cons f fs ih =>
    simp only [SrcSlower.tagEntries, SrcSlower.matchingTags, List.filterMap_cons]
    cases h : f path with
    | none => simpa [h] using ih (i + 1)
    | some ps => simpa [h] using ih (i + 1)

/-- Running the chain over tag-logging entries appends exactly their tags,
in list order, to the request log. -/
theorem cycle_tags (tps : List (String × SrcSlower.Params)) (s : SrcSlower.SSt) :
    ∃ s2,
      SrcSlower.cycleMatching
          (tps.map (fun tp => SrcSlower.entryOf (SrcSlower.tagHandler tp.1) tp.2)) s =
        .ok s2 ∧
      s2.log = s.log ++ tps.map (fun tp => tp.1) ∧
      s2.ended = s.ended ∧ s2.written = s.written := by
  induction tps generalizing s with
  | nil => exact ⟨s, rfl, by simp, rfl, rfl⟩
  | cons tp tps ih =>
    obtain ⟨t, ps⟩ := tp
    by_cases h0 : (List.lookup "0" ps).isNone
    · obtain ⟨s2, h, hlog, he, hw⟩ :=
        ih { s with params := some ps, log := s.log ++ [t] }
      refine ⟨s2, ?_, ?_, he, hw⟩
      · simpa [SrcSlower.cycleMatching, SrcSlower.entryOf, SrcSlower.tagHandler, h0] using h
      · simpa using hlog
    · obtain ⟨s2, h, hlog, he, hw⟩ := ih { s with log := s.log ++ [t] }
      refine ⟨s2, ?_, ?_, he, hw⟩
      · simpa [SrcSlower.cycleMatching, SrcSlower.entryOf, SrcSlower.tagHandler, h0] using h
      · simpa using hlog

/-- C5: dispatch priority is pure registration order.  Register any list of
patterns for GET, each instrumented to log its registration index and
proceed; a `GET url` request logs exactly the indices of the matching
patterns, in registration order — in particular, a broad pattern registered
first always runs before a more specific one registered later, for every
request matching both. -/
theorem dispatch_registration_order (fs : List SrcSlower.PathFn) (url : String)
    (s : SrcSlower.SSt) :
    ∃ s2,
      SrcSlower.requestHandler (SrcSlower.mkLayers fs) ⟨"GET", url⟩ s = .ok s2 ∧
      s2.log = s.log ++
        (SrcSlower.matchingTags (Utils.getURLPathBody url) 0 fs).map (fun tp => tp.1) := by
  have h1 : SrcSlower.getMatchingRoute url "GET" (SrcSlower.mkLayers fs) =
      (SrcSlower.tagEntries 0 fs).filterMap
        (fun fc => (fc.1 (Utils.getURLPathBody url)).map
          (fun ps => SrcSlower.entryOf fc.2 ps)) := rfl
  obtain ⟨s2, h, hlog, _, _⟩ :=
    cycle_tags (SrcSlower.matchingTags (Utils.getURLPathBody url) 0 fs)
      (SrcSlower.setupReq s)
  refine ⟨s2, ?_, ?_⟩
  · show SrcSlower.cycleMatching
        (SrcSlower.getMatchingRoute url "GET" (SrcSlower.mkLayers fs))
        (SrcSlower.setupReq s) = .ok s2
    rw [h1, filterMap_tagEntries]
    exact h
  · simpa [SrcSlower.setupReq] using hlog

/-- Peeling one unstarred literal atom off the matcher. -/
theorem rmatch_lit (c : Char) (rest : List Utils.RAtom) (l : List Char) :
    Utils.rmatch (Utils.RAtom.lit c false :: rest) l = true ↔
      ∃ l2, l = c :: l2 ∧ Utils.rmatch rest l2 = true := by
  cases l with
  | nil => simp [Utils.rmatch, Utils.RAtom.isStar]
  | cons x xs =>
    have he : Utils.rmatch (Utils.RAtom.lit c false :: rest) (x :: xs) =
        (Utils.charMatches (Utils.RAtom.lit c false) x && Utils.rmatch rest xs) := rfl
    rw [he]
    simp only [Utils.charMatches, Bool.and_eq_true, decide_eq_true_eq, List.cons.injEq]
    constructor
    · rintro ⟨rfl, h⟩
      exact ⟨xs, ⟨rfl, rfl⟩, h⟩
    · rintro ⟨l2, ⟨rfl, rfl⟩, h2⟩
      exact ⟨rfl, h2⟩

/-- A single unstarred dot matches exactly the one-character strings whose
character is not a line terminator. -/
theorem rmatch_dot_single (l : List Char) :
    Utils.rmatch [Utils.RAtom.dot false] l = true ↔
      ∃ c, Utils.isLineTerm c = false ∧ l = [c] := by
  cases l with
  | nil => simp [Utils.rmatch, Utils.RAtom.isStar]
  | cons x xs =>
    cases xs with
    | nil =>
      simp [Utils.rmatch, Utils.RAtom.isStar, Utils.charMatches, List.isEmpty]
    | cons y ys =>
      simp [Utils.rmatch, Utils.RAtom.isStar, Utils.charMatches, List.isEmpty]

/-- C6 (counterexample): the single-wildcard token does not consume one
path segment: the pattern `/item/{?}` fails to match `/item/42`, whose
final segment `42` is a single segment of two characters. -/
theorem single_wildcard_segment_cex :
    ¬ Utils.isSparseEqual "/item/\x7b?\x7d" "/item/42" = some true ∧
    Utils.isSparseEqual "/item/\x7b?\x7d" "/item//" = some true := by
  constructor
  · decide
  · rfl

/-- C6 (amended): the single-wildcard token consumes exactly one arbitrary
character (any character but a line terminator — including `/`), not one
path segment: `/item/{?}` matches `/item/5` and even `/item//`, but not
`/item/5/6`, `/item/` or `/item/42`; in general it matches exactly the
strings whose token-rewritten form is `/item/` followed by one character. -/
theorem single_wildcard_one_char :
    Utils.isSparseEqual "/item/\x7b?\x7d" "/item/5" = some true ∧
    Utils.isSparseEqual "/item/\x7b?\x7d" "/item/5/6" = some false ∧
    Utils.isSparseEqual "/item/\x7b?\x7d" "/item/" = some false ∧
    Utils.isSparseEqual "/item/\x7b?\x7d" "/item/42" = some false ∧
    Utils.isSparseEqual "/item/\x7b?\x7d" "/item//" = some true ∧
    ∀ s : String,
      Utils.isSparseEqual "/item/\x7b?\x7d" s = some true ↔
        ∃ c, Utils.isLineTerm c = false ∧
          (Utils.sparseReplace s).toList = ['/', 'i', 't', 'e', 'm', '/', c] := by
  refine ⟨rfl, rfl, rfl, rfl, rfl, ?_⟩
  intro s
  show some (Utils.rmatch [Utils.RAtom.lit '/' false, Utils.RAtom.lit 'i' false,
      Utils.RAtom.lit 't' false, Utils.RAtom.lit 'e' false, Utils.RAtom.lit 'm' false,
      Utils.RAtom.lit '/' false, Utils.RAtom.dot false]
      (Utils.sparseReplace s).toList) = some true ↔ _
  simp only [Option.some.injEq]
  generalize (Utils.sparseReplace s).toList = l
  simp only [rmatch_lit, rmatch_dot_single]
  constructor
  · rintro ⟨l1, rfl, l2, rfl, l3, rfl, l4, rfl, l5, rfl, l6, rfl, c, hc, rfl⟩
    exact ⟨c, hc, rfl⟩
  · rintro ⟨c, hc, rfl⟩
    exact ⟨_, rfl, _, rfl, _, rfl, _, rfl, _, rfl, _, rfl, c, hc, rfl⟩

/-- C6 (witness): the characterization applied to the concrete path
`/item/Q`, instantiating the existential with the character `Q`. -/
theorem single_wildcard_one_char_witness :
    Utils.isSparseEqual "/item/\x7b?\x7d" "/item/Q" = some true :=
  (single_wildcard_one_char.2.2.2.2.2 "/item/Q").mpr ⟨'Q', by decide, by decide⟩

/-- Splitting never yields an empty piece list. -/
theorem charSplit_ne_nil (sep : Char) (l : List Char) : Utils.charSplit sep l ≠ [] := by
  induction l with
  | nil => simp [Utils.charSplit]
  | cons c cs ih =>
    simp only [Utils.charSplit]
    cases hcs : Utils.charSplit sep cs with
    | nil => exact absurd hcs ih
    | cons p ps => by_cases hc : c = sep <;> simp [hc]

/-- Splitting a separator-free list yields the list itself as one piece. -/
theorem charSplit_not_mem (sep : Char) (l : List Char) (h : sep ∉ l) :
    Utils.charSplit sep l = [l] := by
  induction l with
  | nil => rfl
  | cons c cs ih =>
    have hc : ¬ c = sep := fun hcc => h (hcc ▸ List.mem_cons_self c cs)
    have hcs : sep ∉ cs := fun hm => h (List.mem_cons_of_mem c hm)
    simp only [Utils.charSplit, ih hcs]
    simp [hc]

/-- Splitting at the first separator occurrence. -/
theorem charSplit_append (sep : Char) (xs ys : List Char) (h : sep ∉ xs) :
    Utils.charSplit sep (xs ++ sep :: ys) = xs :: Utils.charSplit sep ys := by
  induction xs with
  | nil =>
    obtain ⟨p, ps, hp⟩ := List.exists_cons_of_ne_nil (charSplit_ne_nil sep ys)
    simp [Utils.charSplit, hp]
  | cons c xs ih =>
    have hc : ¬ c = sep := fun hcc => h (hcc ▸ List.mem_cons_self c xs)
    have hx : sep ∉ xs := fun hm => h (List.mem_cons_of_mem c hm)
    show Utils.charSplit sep (c :: (xs ++ sep :: ys)) = (c :: xs) :: Utils.charSplit sep ys
    rw [show Utils.charSplit sep (c :: (xs ++ sep :: ys)) =
        (match Utils.charSplit sep (xs ++ sep :: ys) with
         | [] => [[]]
         | p :: ps => if c = sep then [] :: p :: ps else (c :: p) :: ps) from rfl]
    rw [ih hx]
    simp [hc]

/-- A segment splits at its first `=` into key and value. -/
theorem splitEq_append (k v : List Char) (h : '=' ∉ k) :
    Utils.splitEq (k ++ '=' :: v) = (k, v) := by
  induction k with
  | nil => simp [Utils.splitEq]
  | cons c cs ih =>
    have hc : ¬ c = '=' := fun hcc => h (hcc ▸ List.mem_cons_self c cs)
    have hcs : '=' ∉ cs := fun hm => h (List.mem_cons_of_mem c hm)
    simp [Utils.splitEq, hc, ih hcs]

/-- Query unescaping is the identity on text without `%` or `+`. -/
theorem qsDecode_plain (l : List Char) (h : l.all Utils.qsPlainChar = true) :
    Utils.qsDecodeL l = l := by
  induction l with
  | nil => rfl
  | cons c cs ih =>
    have hc : Utils.qsPlainChar c = true := by
      have := List.all_eq_true.1 h c (List.mem_cons_self c cs)
      simpa using this
    have hplus : ¬ c = '+' := by
      intro hcc; rw [hcc] at hc; simp [Utils.qsPlainChar] at hc
    have hpct : ¬ c = '%' := by
      intro hcc; rw [hcc] at hc; simp [Utils.qsPlainChar] at hc
    have hcs : cs.all Utils.qsPlainChar = true := by
      rw [List.all_cons, Bool.and_eq_true] at h
      exact h.2
    match cs, hcs, ih with
    | [], _, _ =>
      rw [show Utils.qsDecodeL [c] =
          (if c = '+' then ' ' :: Utils.qsDecodeL [] else c :: Utils.qsDecodeL []) from rfl,
        if_neg hplus]
      rfl
    | [a], hcs, ih =>
      rw [show Utils.qsDecodeL (c :: [a]) =
          (if c = '+' then ' ' :: Utils.qsDecodeL [a] else c :: Utils.qsDecodeL [a]) from rfl,
        if_neg hplus, ih hcs]
    | a :: b :: rest, hcs, ih =>
      rw [show Utils.qsDecodeL (c :: a :: b :: rest) =
          (if c = '+' then ' ' :: Utils.qsDecodeL (a :: b :: rest)
           else if c = '%' then
             (match Utils.hexDigit a, Utils.hexDigit b with
              | some ha, some hb =>
                Char.ofNat (16 * ha + hb) :: Utils.qsDecodeL rest
              | _, _ => c :: Utils.qsDecodeL (a :: b :: rest))
           else c :: Utils.qsDecodeL (a :: b :: rest)) from rfl,
        if_neg hplus, if_neg hpct, ih hcs]

/-- Non-membership distributes over the query-string shape. -/
theorem not_mem_append_cons (c s : Char) (xs ys : List Char)
    (hx : c ∉ xs) (hs : c ≠ s) (hy : c ∉ ys) : c ∉ xs ++ s :: ys := by
  intro hm
  rcases List.mem_append.1 hm with h | h
  · exact hx h
  · rcases List.mem_cons.1 h with h | h
    · exact hs h
    · exact hy h

/-- A character the plain class rejects does not occur in all-plain text. -/
theorem plain_not_mem (l : List Char) (h : l.all Utils.qsPlainChar = true)
    (c : Char) (hc : Utils.qsPlainChar c = false) : c ∉ l := by
  intro hm
  have hx := List.all_eq_true.1 h c hm
  rw [hc] at hx
  exact Bool.false_ne_true hx

/-- Parsing `k=v1&k=v2` (plain text) collects both values under `k`. -/
theorem qsParse_two (kd vd1 vd2 : List Char)
    (hk : kd.all Utils.qsPlainChar = true)
    (h1 : vd1.all Utils.qsPlainChar = true)
    (h2 : vd2.all Utils.qsPlainChar = true) :
    Utils.qsParse (kd ++ '=' :: vd1 ++ '&' :: kd ++ '=' :: vd2) =
      [(String.mk kd, Utils.QSVal.many [String.mk vd1, String.mk vd2])] := by
  have hka : '&' ∉ kd := plain_not_mem kd hk '&' (by decide)
  have hke : '=' ∉ kd := plain_not_mem kd hk '=' (by decide)
  have h1a : '&' ∉ vd1 := plain_not_mem vd1 h1 '&' (by decide)
  have h2a : '&' ∉ vd2 := plain_not_mem vd2 h2 '&' (by decide)
  have hshape : kd ++ '=' :: vd1 ++ '&' :: kd ++ '=' :: vd2 =
      (kd ++ '=' :: vd1) ++ '&' :: (kd ++ '=' :: vd2) := by
    simp [List.append_assoc]
  have e1 : Utils.charSplit '&' ((kd ++ '=' :: vd1) ++ '&' :: (kd ++ '=' :: vd2)) =
      (kd ++ '=' :: vd1) :: Utils.charSplit '&' (kd ++ '=' :: vd2) :=
    charSplit_append '&' (kd ++ '=' :: vd1) (kd ++ '=' :: vd2)
      (not_mem_append_cons '&' '=' kd vd1 hka (by decide) h1a)
  have e2 : Utils.charSplit '&' (kd ++ '=' :: vd2) = [kd ++ '=' :: vd2] :=
    charSplit_not_mem '&' (kd ++ '=' :: vd2)
      (not_mem_append_cons '&' '=' kd vd2 hka (by decide) h2a)
  have hP1 : ¬ kd ++ '=' :: vd1 = [] := by simp
  have hP2 : ¬ kd ++ '=' :: vd2 = [] := by simp
  have hpairs : Utils.qsPairs (kd ++ '=' :: vd1 ++ '&' :: kd ++ '=' :: vd2) =
      [(String.mk kd, String.mk vd1), (String.mk kd, String.mk vd2)] := by
    simp only [Utils.qsPairs, hshape, e1, e2, List.filterMap_cons, List.filterMap_nil,
      hP1, hP2, if_neg, if_false]
    rw [splitEq_append kd vd1 hke, splitEq_append kd vd2 hke]
    simp [qsDecode_plain kd hk, qsDecode_plain vd1 h1, qsDecode_plain vd2 h2]
  simp only [Utils.qsParse, hpairs, List.foldl_cons, List.foldl_nil]
  simp [Utils.qsInsert, Utils.qsAdd]

/-- Parsing a single plain `k=v` pair yields the single value. -/
theorem qsParse_one (kd vd : List Char)
    (hk : kd.all Utils.qsPlainChar = true)
    (hv : vd.all Utils.qsPlainChar = true) :
    Utils.qsParse (kd ++ '=' :: vd) =
      [(String.mk kd, Utils.QSVal.one (String.mk vd))] := by
  have hka : '&' ∉ kd := plain_not_mem kd hk '&' (by decide)
  have hke : '=' ∉ kd := plain_not_mem kd hk '=' (by decide)
  have hva : '&' ∉ vd := plain_not_mem vd hv '&' (by decide)
  have e2 : Utils.charSplit '&' (kd ++ '=' :: vd) = [kd ++ '=' :: vd] :=
    charSplit_not_mem '&' (kd ++ '=' :: vd)
      (not_mem_append_cons '&' '=' kd vd hka (by decide) hva)
  have hP : ¬ kd ++ '=' :: vd = [] := by simp
  have hpairs : Utils.qsPairs (kd ++ '=' :: vd) = [(String.mk kd, String.mk vd)] := by
    simp only [Utils.qsPairs, e2, List.filterMap_cons, List.filterMap_nil, hP, if_neg, if_false]
    rw [splitEq_append kd vd hke]
    simp [qsDecode_plain kd hk, qsDecode_plain vd hv]
  simp [Utils.qsParse, hpairs, Utils.qsInsert]

/-- Extracting the query text of `/p?rest` when `rest` is free of `?`/`#`. -/
theorem url_query_extract (rest : List Char) (hq : '?' ∉ rest) (hh : '#' ∉ rest) :
    Utils.getURLQueryString (String.mk ('/' :: 'p' :: '?' :: rest)) = Utils.qsParse rest := by
  have e1 : Utils.charSplit '?' ('/' :: 'p' :: '?' :: rest) =
      ['/', 'p'] :: Utils.charSplit '?' rest :=
    charSplit_append '?' ['/', 'p'] rest (by decide)
  have e2 : Utils.charSplit '?' rest = [rest] := charSplit_not_mem '?' rest hq
  have e3 : Utils.charSplit '#' rest = [rest] := charSplit_not_mem '#' rest hh
  show Utils.qsParse ((Utils.charSplit '#'
      ((Utils.charSplit '?' ('/' :: 'p' :: '?' :: rest)).getD 1 [])).headD []) = _
  rw [e1, e2]
  show Utils.qsParse ((Utils.charSplit '#' rest).headD []) = _
  rw [e3]
  rfl

/-- C7 (counterexample): for the request URL `/p?a=1&a=2` the derived
query mapping binds `a` to the two-element array `['1','2']` — not to the
single last value `"2"` the claim predicts. -/
theorem query_last_value_cex :
    Utils.getURLQueryString "/p?a=1&a=2" = [("a", Utils.QSVal.many ["1", "2"])] ∧
    Utils.QSVal.many ["1", "2"] ≠ Utils.QSVal.one "2" := by
  exact ⟨by decide, by decide⟩

/-- C7 (amended): the derived query mapping binds each key to all of its
values: a key occurring once maps to that single value, and a key occurring
twice maps to the array of both occurrence values in query order (the
node:querystring collection behavior), not to the last value alone. -/
theorem query_duplicates_collected (k v1 v2 : String)
    (hk : k.data.all Utils.qsPlainChar = true)
    (h1 : v1.data.all Utils.qsPlainChar = true)
    (h2 : v2.data.all Utils.qsPlainChar = true) :
    Utils.getURLQueryString
        (String.mk ('/' :: 'p' :: '?' ::
          (k.data ++ '=' :: v1.data ++ '&' :: k.data ++ '=' :: v2.data))) =
      [(k, Utils.QSVal.many [v1, v2])] ∧
    Utils.getURLQueryString
        (String.mk ('/' :: 'p' :: '?' :: (k.data ++ '=' :: v1.data))) =
      [(k, Utils.QSVal.one v1)] := by
  obtain ⟨kd⟩ := k
  obtain ⟨vd1⟩ := v1
  obtain ⟨vd2⟩ := v2
  have hq1 : '?' ∉ kd ++ '=' :: vd1 ++ '&' :: kd ++ '=' :: vd2 := by
    simp only [List.cons_append, List.append_assoc]
    exact not_mem_append_cons '?' '=' kd _ (plain_not_mem kd hk '?' (by decide)) (by decide)
      (not_mem_append_cons '?' '&' vd1 _ (plain_not_mem vd1 h1 '?' (by decide)) (by decide)
        (not_mem_append_cons '?' '=' kd vd2 (plain_not_mem kd hk '?' (by decide)) (by decide)
          (plain_not_mem vd2 h2 '?' (by decide))))
  have hh1 : '#' ∉ kd ++ '=' :: vd1 ++ '&' :: kd ++ '=' :: vd2 := by
    simp only [List.cons_append, List.append_assoc]
    exact not_mem_append_cons '#' '=' kd _ (plain_not_mem kd hk '#' (by decide)) (by decide)
      (not_mem_append_cons '#' '&' vd1 _ (plain_not_mem vd1 h1 '#' (by decide)) (by decide)
        (not_mem_append_cons '#' '=' kd vd2 (plain_not_mem kd hk '#' (by decide)) (by decide)
          (plain_not_mem vd2 h2 '#' (by decide))))
  have hq2 : '?' ∉ kd ++ '=' :: vd1 :=
    not_mem_append_cons '?' '=' kd vd1 (plain_not_mem kd hk '?' (by decide)) (by decide)
      (plain_not_mem vd1 h1 '?' (by decide))
  have hh2 : '#' ∉ kd ++ '=' :: vd1 :=
    not_mem_append_cons '#' '=' kd vd1 (plain_not_mem kd hk '#' (by decide)) (by decide)
      (plain_not_mem vd1 h1 '#' (by decide))
  constructor
  · rw [url_query_extract _ hq1 hh1]
    exact qsParse_two kd vd1 vd2 hk h1 h2
  · rw [url_query_extract _ hq2 hh2]
    exact qsParse_one kd vd1 hk h1

/-- C7 (witness): the collection theorem applied at key `a` and values
`1`, `2`, i.e. the request URL `/p?a=1&a=2`. -/
theorem query_duplicates_collected_witness :
    Utils.getURLQueryString
        (String.mk ('/' :: 'p' :: '?' ::
          (("a" : String).data ++ '=' :: ("1" : String).data ++ '&' ::
            ("a" : String).data ++ '=' :: ("2" : String).data))) =
      [("a", Utils.QSVal.many ["1", "2"])] :=
  (query_duplicates_collected "a" "1" "2" (by decide) (by decide) (by decide)).1

/-- An exact prefix match is in particular a case-insensitive one. -/
theorem csStarts_ciStarts (tok l : List Char) (h : Utils.csStarts tok l = true) :
    Utils.ciStarts tok l = true := by
  induction tok generalizing l with
  | nil => rfl
  | cons t ts ih =>
    cases l with
    | nil => exact absurd h (by simp [Utils.csStarts])
    | cons c cs =>
      simp only [Utils.csStarts, Bool.and_eq_true, decide_eq_true_eq] at h
      simp only [Utils.ciStarts, Bool.and_eq_true, decide_eq_true_eq]
      exact ⟨by rw [h.1], ih cs h.2⟩

/-- Replacement-string expansion is the identity on dollar-free values. -/
theorem expandRepl_noDollar (m pre post val : List Char)
    (h : val.all (fun c => !(c = '$')) = true) :
    Utils.expandRepl m pre post val = val := by
  induction val with
  | nil => rfl
  | cons c rest ih =>
    rw [List.all_cons, Bool.and_eq_true] at h
    have hc : ¬ c = '$' := by
      have := h.1
      simpa using this
    match rest, h.2, ih with
    | [], _, _ => rfl
    | d :: rest2, h2, ih =>
      have ihd : Utils.expandRepl m pre post (d :: rest2) = d :: rest2 := ih h2
      rw [show Utils.expandRepl m pre post (c :: d :: rest2) =
          (if c = '$' then
            if d = '$' then '$' :: Utils.expandRepl m pre post rest2
            else if d = '&' then m ++ Utils.expandRepl m pre post rest2
            else if d = Utils.backtickC then pre ++ Utils.expandRepl m pre post rest2
            else if d = Utils.aposC then post ++ Utils.expandRepl m pre post rest2
            else c :: Utils.expandRepl m pre post (d :: rest2)
           else c :: Utils.expandRepl m pre post (d :: rest2)) from rfl,
        if_neg hc, ihd]

/-- On a subject in which every case-insensitive occurrence of the token is
an exact occurrence, the case-insensitive dollar-expanding replacement and
the exact literal substitution coincide (for a dollar-free value). -/
theorem ciRepl_eq_csRepl (tok val : List Char)
    (hval : val.all (fun c => !(c = '$')) = true) :
    ∀ (fuel : Nat) (pre l : List Char),
      (∀ l2, l2 <:+ l → Utils.ciStarts tok l2 = true → Utils.csStarts tok l2 = true) →
      Utils.ciReplF tok val fuel pre l = Utils.csReplF tok val fuel l := by
  intro fuel
  induction fuel with
  | zero => intro pre l _; rfl
  | succ f ihf =>
    intro pre l hH
    cases l with
    | nil => rfl
    | cons c cs =>
      by_cases hci : Utils.ciStarts tok (c :: cs) = true
      · have hcs := hH (c :: cs) (List.suffix_refl _) hci
        simp only [Utils.ciReplF, Utils.csReplF, hci, hcs, if_true]
        rw [expandRepl_noDollar _ _ _ _ hval]
        congr 1
        exact ihf (pre ++ (c :: cs).take tok.length) ((c :: cs).drop tok.length)
          (fun l2 hs hc2 => hH l2 (hs.trans (List.drop_suffix _ _)) hc2)
      · have hcs : ¬ Utils.csStarts tok (c :: cs) = true :=
          fun h => hci (csStarts_ciStarts tok (c :: cs) h)
        simp only [Utils.ciReplF, Utils.csReplF, if_neg hci, if_neg hcs]
        congr 1
        exact ihf (pre ++ [c]) cs
          (fun l2 hs hc2 => hH l2 (hs.trans (List.suffix_cons c cs)) hc2)

/-- C8 (counterexample): rendering is case-insensitive, so a template that
also contains a differently-cased variant of the token does not round-trip:
`{{X}} {{x}}` rendered with `X ↦ v` gives `v v`, while the spec's literal
substitution of the token for `X` leaves `{{x}}` unchanged. -/
theorem render_case_insensitive_cex :
    Utils.renderDynamicHTML "\x7b\x7bX\x7d\x7d \x7b\x7bx\x7d\x7d" [("X", "v")] = "v v" ∧
    Utils.specSubstitute "\x7b\x7bX\x7d\x7d \x7b\x7bx\x7d\x7d" (Utils.mkTok "X") "v" =
      "v \x7b\x7bx\x7d\x7d" ∧
    ("v v" : String) ≠ "v \x7b\x7bx\x7d\x7d" :=
  ⟨by decide, by decide, by decide⟩

/-- C8 (amended): rendering replaces the token case-insensitively and
interprets `$`-sequences in the value; for an identifier key, a dollar-free
value, and a template whose case-insensitive token occurrences are all
exact, the output is the input with every occurrence of the token replaced
by the value and every other byte unchanged (the literal substitution). -/
theorem render_token_substitution (html key val : String)
    (_hkey : key.data.all Char.isAlpha = true)
    (hval : val.data.all (fun c => !(c = '$')) = true)
    (hci : ∀ l ∈ html.data.tails,
        Utils.ciStarts (Utils.mkTok key).data l = true →
        Utils.csStarts (Utils.mkTok key).data l = true) :
    Utils.renderDynamicHTML html [(key, val)] =
      Utils.specSubstitute html (Utils.mkTok key) val := by
  show String.mk (Utils.ciReplF
      (Utils.lbrace :: Utils.lbrace :: (key.toList ++ [Utils.rbrace, Utils.rbrace]))
      val.toList (html.toList.length + 1) [] html.toList) = _
  exact congrArg String.mk
    (ciRepl_eq_csRepl _ val.toList hval (html.toList.length + 1) [] html.toList
      (fun l2 hs => hci l2 ((List.mem_tails _ _).2 hs)))

/-- C8 (witness): the substitution theorem applied to the template
`A{{X}}B`, key `X` and value `v`. -/
theorem render_token_substitution_witness :
    Utils.renderDynamicHTML "A\x7b\x7bX\x7d\x7dB" [("X", "v")] =
      Utils.specSubstitute "A\x7b\x7bX\x7d\x7dB" (Utils.mkTok "X") "v" :=
  render_token_substitution "A\x7b\x7bX\x7d\x7dB" "X" "v" (by decide) (by decide) (by decide)

/-- C9: every `Route` stored through `setRoute` has a path starting with
`/` (prepended at construction when missing) and a type that is either an
upper-cased member of the fixed `http_methods` list or null; moreover a
null-typed route's match condition is false for every request (`null ===
req.method` never holds), so the dispatch scan never selects it — whichever
route the scan does select carries exactly the request's method. -/
theorem route_table_invariant :
    (∀ (calls : List (String × String × LibRouter.RHandler)),
        ∀ r ∈ LibRouter.buildRoutes calls,
          r.path.data.head? = some '/' ∧
          (r.type = none ∨ ∃ m ∈ LibRouter.httpMethods, r.type = some m)) ∧
    (∀ (r : LibRouter.Route) (req : HReq), r.type = none →
        LibRouter.evalRouteCond r req = .ok false) ∧
    (∀ (routes : List LibRouter.Route) (req : HReq) (r : LibRouter.Route),
        LibRouter.findRoute req routes = .ok (some r) → r.type = some req.method) := by
  refine ⟨?_, ?_, ?_⟩
  · have hmk : ∀ (p t : String) (cb : LibRouter.RHandler),
        (LibRouter.Route.make p t cb).path.data.head? = some '/' ∧
        ((LibRouter.Route.make p t cb).type = none ∨
          ∃ m ∈ LibRouter.httpMethods, (LibRouter.Route.make p t cb).type = some m) := by
      intro p t cb
      constructor
      · by_cases hp : p.data.head? = some '/'
        · simp [LibRouter.Route.make, hp]
        · simp [LibRouter.Route.make, hp]
      · by_cases ht : LibRouter.httpMethods.contains (Utils.jsToUpper (Utils.slugify t)) = true
        · right
          refine ⟨Utils.jsToUpper (Utils.slugify t), List.mem_of_elem_eq_true ht, ?_⟩
          show (if LibRouter.httpMethods.contains (Utils.jsToUpper (Utils.slugify t)) = true
                then some (Utils.jsToUpper (Utils.slugify t)) else none) = _
          rw [if_pos ht]
        · left
          show (if LibRouter.httpMethods.contains (Utils.jsToUpper (Utils.slugify t)) = true
                then some (Utils.jsToUpper (Utils.slugify t)) else none) = none
          rw [if_neg ht]
    have hfold : ∀ (calls : List (String × String × LibRouter.RHandler))
        (acc : List LibRouter.Route),
        (∀ r ∈ acc,
          r.path.data.head? = some '/' ∧
          (r.type = none ∨ ∃ m ∈ LibRouter.httpMethods, r.type = some m)) →
        ∀ r ∈ calls.foldl (fun rs c => LibRouter.setRoute rs c.1 c.2.1 c.2.2) acc,
          r.path.data.head? = some '/' ∧
          (r.type = none ∨ ∃ m ∈ LibRouter.httpMethods, r.type = some m) := by
      intro calls
      induction calls with
      | nil => intro acc hacc r hr; exact hacc r hr
      | cons c cs ih =>
        intro acc hacc r hr
        refine ih (LibRouter.setRoute acc c.1 c.2.1 c.2.2) ?_ r hr
        intro r2 hr2
        rcases List.mem_append.1 hr2 with h | h
        · exact hacc r2 h
        · rcases List.mem_singleton.1 h with rfl
          exact hmk c.1 c.2.1 c.2.2
    intro calls
    exact hfold calls [] (by simp)
  · intro r req h
    simp [LibRouter.evalRouteCond, h]
  · intro routes req r h
    induction routes with
    | nil => exact absurd h (by simp [LibRouter.findRoute])
    | cons r0 rs ih =>
      by_cases hc : r0.type = some req.method
      · rw [show LibRouter.findRoute req (r0 :: rs) =
            (match LibRouter.evalRouteCond r0 req with
             | .error e => .error e
             | .ok true => .ok (some r0)
             | .ok false => LibRouter.findRoute req rs) from rfl] at h
        cases he : LibRouter.evalRouteCond r0 req with
        | error e => rw [he] at h; exact absurd h (by simp)
        | ok b =>
          cases b with
          | true =>
            rw [he] at h
            have : r0 = r := by
              have := h
              simp at this
              exact this
            exact this ▸ hc
          | false => rw [he] at h; exact ih h
      · have he : LibRouter.evalRouteCond r0 req = .ok false := by
          simp [LibRouter.evalRouteCond, hc]
        rw [show LibRouter.findRoute req (r0 :: rs) =
            (match LibRouter.evalRouteCond r0 req with
             | .error e => .error e
             | .ok true => .ok (some r0)
             | .ok false => LibRouter.findRoute req rs) from rfl, he] at h
        exact ih h

/-- C9 (witness): the invariant applied to the registration of path `x`
with the unknown verb `FOO` (a null-typed route whose path gains the
leading slash and which matches no request), and the scan selecting the
sample `GET /x` route, which carries the request's method. -/
theorem route_table_invariant_witness :
    (LibRouter.Route.make "x" "FOO" LibRouter.noopH).path.data.head? = some '/' ∧
    LibRouter.evalRouteCond (LibRouter.Route.make "x" "FOO" LibRouter.noopH)
      ⟨"GET", "/x"⟩ = .ok false ∧
    LibRouter.sampleRoute.type = some "GET" :=
  ⟨(route_table_invariant.1 [("x", "FOO", LibRouter.noopH)]
      (LibRouter.Route.make "x" "FOO" LibRouter.noopH)
      (List.mem_singleton.mpr rfl)).1,
   route_table_invariant.2.1 (LibRouter.Route.make "x" "FOO" LibRouter.noopH)
      ⟨"GET", "/x"⟩ (by decide),
   route_table_invariant.2.2 [LibRouter.sampleRoute] ⟨"GET", "/x"⟩
      LibRouter.sampleRoute (by rfl)⟩
